import Mathlib

/-!
# Verification of the boxfit turn-based room/turn state machine

Shallow embedding of the authoritative turn-based server (`backend/server.js`,
the `GameRoom` class together with `rotateMatrix` and the turn-timeout tick).

Modelling choices:
* JS `Map` objects (`players`, `assignedPieceByPlayer`) are modelled as
  insertion-ordered association lists with `Map.set` / `Map.delete` semantics.
* The 10×10 grid (a JS array of arrays of `color | null`) is modelled as a
  function `Nat → Nat → Option Nat`; the code only ever reads or writes cells
  with both coordinates in `[0,10)`.
* `Math.random`-based piece generation (`randomPiece`) is modelled by an
  oracle stream `supply : Nat → Piece` threaded through the room together with
  a cursor `supplyIdx`; each drawn piece is the next element of the stream.
* `Date.now()` is modelled by an explicit `now : Nat` argument to every
  operation that reads the clock.
* `io.emit`/`socket.emit` calls are output only and do not affect room state;
  they are omitted.
-/

set_option autoImplicit false

namespace Boxfit

/-! ## Association lists modelling JS `Map` (insertion ordered) -/

/-- JS `Map.get(k)`: first entry with the given key. -/
def getA {α : Type} : List (Nat × α) → Nat → Option α
  | [], _ => none
  | (k, v) :: t, k' => if k = k' then some v else getA t k'

/-- JS `Map.has(k)`. -/
def hasA {α : Type} (l : List (Nat × α)) (k : Nat) : Bool :=
  (getA l k).isSome

/-- JS `Map.set(k, v)`: replaces the value in place if the key is present,
otherwise appends the entry at the end (insertion order). -/
def setA {α : Type} : List (Nat × α) → Nat → α → List (Nat × α)
  | [], k, v => [(k, v)]
  | (k', v') :: t, k, v =>
    if k' = k then (k', v) :: t else (k', v') :: setA t k v

/-- JS `Map.delete(k)`: removes the entry with the given key. -/
def delA {α : Type} : List (Nat × α) → Nat → List (Nat × α)
  | [], _ => []
  | (k', v') :: t, k => if k' = k then t else (k', v') :: delA t k

/-! ## Constants (`GRID_ROWS`, `GRID_COLS`, `turnDurationMs`, `maxPlayers`) -/

def GRID_ROWS : Nat := 10
def GRID_COLS : Nat := 10
def turnDurationMs : Nat := 30000
def maxPlayers : Nat := 2

/-! ## Shapes and rotation -/

/-- A shape matrix: a row-major matrix of numbers, a cell is occupied iff its
entry is nonzero (JS truthiness of `shape[ry][rx]`). -/
abbrev ShapeM := List (List Nat)

/-- Entry `m[i][j]`, with missing entries read as `0` (JS `undefined` is falsy
and is written into rotation targets as a hole). -/
def entryM (m : ShapeM) (i j : Nat) : Nat :=
  (m.getD i []).getD j 0

/-- One 90° clockwise rotation: the body of the loop in `rotateMatrix`.
The source builds `r` with `cols` rows of length `rows` and sets
`r[x][rows-1-y] = m[y][x]`; solving `j = rows-1-y` gives
`r[x][j] = m[rows-1-j][x]`. -/
def rotateOnce (m : ShapeM) : ShapeM :=
  let rows := m.length
  let cols := (m.headD []).length
  (List.range cols).map fun x =>
    (List.range rows).map fun j => entryM m (rows - 1 - j) x

/-- Source `rotateMatrix(matrix, times)`: applies `rotateOnce`
`((times % 4) + 4) % 4` times (JS remainder normalized to `[0,4)`). -/
def rotateMatrix (m : ShapeM) (times : Int) : ShapeM :=
  rotateOnce^[(((times % 4) + 4) % 4).toNat] m

/-! ## The board -/

/-- The 10×10 grid: `grid gy gx` is the content of row `gy`, column `gx`
(`none` = empty cell, `some c` = occupied with color `c`). -/
abbrev Grid := Nat → Nat → Option Nat

def emptyGrid : Grid := fun _ _ => none

/-- A single assignment `grid[r][c] = v`. -/
def updateCell (g : Grid) (r c : Nat) (v : Option Nat) : Grid :=
  fun r' c' => if r' = r ∧ c' = c then v else g r' c'

/-- Source `GameRoom.canPlace(shape, x, y)`: every occupied offset must land inside
`[0,10)×[0,10)` on an empty cell. -/
def canPlace (g : Grid) (shape : ShapeM) (x y : Int) : Bool :=
  (List.range shape.length).all fun ry =>
    (List.range ((shape.getD ry []).length)).all fun rx =>
      if entryM shape ry rx = 0 then true
      else
        let gx := x + rx
        let gy := y + ry
        decide (0 ≤ gx) && decide (0 ≤ gy) &&
          decide (gx < GRID_COLS) && decide (gy < GRID_ROWS) &&
          (g gy.toNat gx.toNat).isNone

/-- The placement loop inside `placePiece`: writes `color` into
`grid[y+ry][x+rx]` for every occupied offset `(rx, ry)` of `shape`. -/
def placeShape (shape : ShapeM) (x y : Int) (color : Nat) (g : Grid) : Grid :=
  (List.range shape.length).foldl
    (fun g1 ry =>
      (List.range ((shape.getD ry []).length)).foldl
        (fun g2 rx =>
          if entryM shape ry rx = 0 then g2
          else updateCell g2 (y + ry).toNat (x + rx).toNat (some color))
        g1)
    g

/-- A row is full iff every one of its 10 cells is occupied. -/
def rowFull (g : Grid) (row : Nat) : Bool :=
  (List.range GRID_COLS).all fun col => (g row col).isSome

/-- Clearing a full row: every cell of the row is reset to `null` in place. -/
def clearRow (g : Grid) (row : Nat) : Grid :=
  (List.range GRID_COLS).foldl (fun g2 col => updateCell g2 row col none) g

/-- One iteration of the row-scanning loop in `placePiece`: if the row is full
(in the grid as mutated so far) clear it and count it. -/
def clearStep (acc : Grid × Nat) (row : Nat) : Grid × Nat :=
  if rowFull acc.1 row then (clearRow acc.1 row, acc.2 + 1) else acc

/-- The row-clearing loop inside `placePiece`: scans rows `0..9` top to
bottom, clearing each full row in place; returns the new grid and the number
of rows cleared. -/
def clearFullRows (g : Grid) : Grid × Nat :=
  (List.range GRID_ROWS).foldl clearStep (g, 0)

/-! ## Players, pieces, the room -/

structure Player where
  id : Nat
  name : String
  score : Nat
deriving DecidableEq

structure Piece where
  pid : Nat
  shape : ShapeM
  color : Nat
deriving DecidableEq

inductive GState where
  | waiting
  | playing
deriving DecidableEq

inductive RejectReason where
  | notInRoom
  | notYourTurn
  | gameNotStarted
  | invalidPlacement
deriving DecidableEq

inductive PlaceResult where
  | ok (rowsCleared : Nat)
  | rejected (reason : RejectReason)
deriving DecidableEq

/-- The `GameRoom` object of the turn-based server.  `supply`/`supplyIdx`
model the `randomPiece()` oracle as a stream of pieces. -/
structure GameRoom where
  id : String
  players : List (Nat × Player)
  grid : Grid
  gameState : GState
  lastActivity : Nat
  turnOrder : List Nat
  turnIndex : Nat
  activePlayerId : Option Nat
  turnEndsAt : Nat
  pieceQueue : List Piece
  assignedPieceByPlayer : List (Nat × Option Piece)
  supply : Nat → Piece
  supplyIdx : Nat

/-- Constructor `new GameRoom(id)`. -/
def initRoom (id : String) (now : Nat) (supply : Nat → Piece) : GameRoom where
  id := id
  players := []
  grid := emptyGrid
  gameState := .waiting
  lastActivity := now
  turnOrder := []
  turnIndex := 0
  activePlayerId := none
  turnEndsAt := 0
  pieceQueue := []
  assignedPieceByPlayer := []
  supply := supply
  supplyIdx := 0

/-- Source `replenishQueue()`: pushes fresh random pieces until the queue holds 20. -/
def replenishQueue (r : GameRoom) : GameRoom :=
  let need := 20 - r.pieceQueue.length
  { r with
    pieceQueue :=
      r.pieceQueue ++ (List.range need).map fun i => r.supply (r.supplyIdx + i)
    supplyIdx := r.supplyIdx + need }

/-- Source `startTurn()`: aborts to `waiting` unless two players are present; resets
the turn index if it ran past the order, makes `turnOrder[turnIndex]` active,
sets the deadline, replenishes the queue and assigns its head
(`pieceQueue.shift() || randomPiece()`) to the active player. -/
def startTurn (r : GameRoom) (now : Nat) : GameRoom :=
  if r.turnOrder.length = 0 ∨ r.players.length < 2 then
    { r with activePlayerId := none, turnEndsAt := 0, gameState := .waiting }
  else
    let idx := if r.turnOrder.length ≤ r.turnIndex then 0 else r.turnIndex
    let active := r.turnOrder.getD idx 0
    let r1 := replenishQueue
      { r with
        turnIndex := idx
        activePlayerId := some active
        turnEndsAt := now + turnDurationMs
        gameState := .playing }
    match r1.pieceQueue with
    | p :: rest =>
      { r1 with
        pieceQueue := rest
        assignedPieceByPlayer := setA r1.assignedPieceByPlayer active (some p) }
    | [] =>
      { r1 with
        assignedPieceByPlayer :=
          setA r1.assignedPieceByPlayer active (some (r1.supply r1.supplyIdx))
        supplyIdx := r1.supplyIdx + 1 }

/-- Source `advanceTurn()`: falls back to `waiting` unless two players are present,
otherwise steps the index to the other player and starts that turn. -/
def advanceTurn (r : GameRoom) (now : Nat) : GameRoom :=
  if r.turnOrder.length = 0 ∨ r.players.length < 2 then
    { r with activePlayerId := none, turnEndsAt := 0, gameState := .waiting }
  else
    startTurn { r with turnIndex := (r.turnIndex + 1) % r.turnOrder.length } now

/-- Source `addPlayer(socketId, playerName)`: rejects when the room is full,
otherwise registers the player (score 0), appends it to the turn order and
the assignment map, touches the room, and starts turns exactly when the
roster reaches two players while no player is active. -/
def addPlayer (r : GameRoom) (now : Nat) (sid : Nat) (name : String) :
    GameRoom × Bool :=
  if maxPlayers ≤ r.players.length then (r, false)
  else
    let r1 :=
      { r with
        players := setA r.players sid ⟨sid, name, 0⟩
        turnOrder := r.turnOrder ++ [sid]
        assignedPieceByPlayer := setA r.assignedPieceByPlayer sid none
        lastActivity := now }
    if r1.players.length = 2 ∧ r1.activePlayerId = none then
      (startTurn { r1 with gameState := .playing } now, true)
    else
      ({ r1 with gameState := .waiting }, true)

/-- Source `removePlayer(socketId)`: drops the player from the roster, assignment
map and turn order; below two players clears the active player and deadline
and falls back to `waiting`; returns whether the room is now empty.  The
source calls `touch()` unconditionally after the branch; since no branch
reads or writes `lastActivity` (and the roster is final before the branch),
the stamp is recorded once up front, which yields the identical room. -/
def removePlayer (r : GameRoom) (now : Nat) (sid : Nat) : GameRoom × Bool :=
  let r1 :=
    { r with
      players := delA r.players sid
      assignedPieceByPlayer := delA r.assignedPieceByPlayer sid
      turnOrder := r.turnOrder.erase sid
      lastActivity := now }
  if r1.players.length < 2 then
    ({ r1 with gameState := .waiting, activePlayerId := none, turnEndsAt := 0 },
     decide (r1.players.length = 0))
  else if r1.activePlayerId = some sid then
    (advanceTurn { r1 with activePlayerId := none } now,
     decide (r1.players.length = 0))
  else (r1, decide (r1.players.length = 0))

/-- Source `placePiece` with payload `socketId, shape, color, x, y`: the four rejection checks in
source order, then the placement loop, the row-clearing loop, the score
update (`+100` per cleared row), `touch()`, clearing the placer's assigned
piece, and `advanceTurn()`. -/
def placePiece (r : GameRoom) (now : Nat) (sid : Nat) (shape : ShapeM)
    (color : Nat) (x y : Int) : GameRoom × PlaceResult :=
  if hasA r.players sid = false then (r, .rejected .notInRoom)
  else if r.activePlayerId.isSome ∧ r.activePlayerId ≠ some sid then
    (r, .rejected .notYourTurn)
  else if r.gameState ≠ .playing then (r, .rejected .gameNotStarted)
  else if canPlace r.grid shape x y = false then
    (r, .rejected .invalidPlacement)
  else
    let g1 := placeShape shape x y color r.grid
    let cleared := clearFullRows g1
    let players1 :=
      if 0 < cleared.2 then
        match getA r.players sid with
        | some p => setA r.players sid { p with score := p.score + cleared.2 * 100 }
        | none => r.players
      else r.players
    let r1 :=
      { r with
        grid := cleared.1
        players := players1
        lastActivity := now
        assignedPieceByPlayer := setA r.assignedPieceByPlayer sid none }
    (advanceTurn r1 now, .ok cleared.2)

/-- The `place-item` socket handler applies `rotateMatrix` to the client's
piece before calling `placePiece`. -/
def placeItem (r : GameRoom) (now : Nat) (sid : Nat) (pieceShape : ShapeM)
    (color : Nat) (x y : Int) (rotation : Int) : GameRoom × PlaceResult :=
  placePiece r now sid (rotateMatrix pieceShape rotation) color x y

/-- Source `reset()`: empties the grid and zeroes every score; turn state untouched. -/
def resetRoom (r : GameRoom) (now : Nat) : GameRoom :=
  { r with
    grid := emptyGrid
    players := r.players.map fun e => (e.1, { e.2 with score := 0 })
    lastActivity := now }

/-- The per-room body of the turn-timeout tick (`setInterval`, 1 s cadence):
skips rooms with no active player, rooms not playing or below two players,
and rooms whose deadline has not passed (`now > turnEndsAt` is strict);
otherwise discards the active player's assigned piece and advances the turn. -/
def tickRoom (r : GameRoom) (now : Nat) : GameRoom :=
  if r.activePlayerId = none then r
  else if r.gameState ≠ .playing ∨ r.players.length < 2 then r
  else if r.turnEndsAt < now then
    let cur := r.activePlayerId.getD 0
    advanceTurn { r with assignedPieceByPlayer := setA r.assignedPieceByPlayer cur none } now
  else r

/-! ## Specification-side definitions and invariants -/

/-- Offset `(ry, rx)` is an occupied offset of `shape`: an in-range entry that is
nonzero (JS truthiness of `shape[ry][rx]`). -/
def occAt (shape : ShapeM) (ry rx : Nat) : Prop :=
  ry < shape.length ∧ rx < (shape.getD ry []).length ∧ entryM shape ry rx ≠ 0

instance (shape : ShapeM) (ry rx : Nat) : Decidable (occAt shape ry rx) := by
  unfold occAt
  infer_instance

/-- Cell `(r, c)` of the grid is covered by some occupied offset of `shape`
anchored at `(x, y)`. -/
def coversCell (shape : ShapeM) (x y : Int) (r c : Nat) : Prop :=
  ∃ ry < shape.length, ∃ rx < (shape.getD ry []).length,
    entryM shape ry rx ≠ 0 ∧ x + rx = (c : Int) ∧ y + ry = (r : Int)

instance (shape : ShapeM) (x y : Int) (r c : Nat) :
    Decidable (coversCell shape x y r c) := by
  unfold coversCell
  infer_instance

/-- The number of rows of `g` that are completely occupied. -/
def countFullRows (g : Grid) : Nat :=
  ((List.range GRID_ROWS).filter fun row => rowFull g row).length

/-! ## Concrete scenario rooms (used by witnesses and counterexamples) -/

/-- A deterministic piece oracle. -/
def pieceSupply : Nat → Piece := fun i => ⟨i, [[1]], 7⟩

def room0 : GameRoom := initRoom ("room") 0 pieceSupply

/-- Player 1 joins the empty room. -/
def room1 : GameRoom := (addPlayer room0 0 1 "alice").1

/-- Player 2 joins: the game starts, player 1 is active. -/
def room2 : GameRoom := (addPlayer room1 0 2 "bob").1

/-- A 1×10 bar: one placement of it at the origin completes row 0. -/
def rowShape : ShapeM := [[1, 1, 1, 1, 1, 1, 1, 1, 1, 1]]

/-- Player 1 places the bar, clears one row, scores 100; player 2 active. -/
def room3 : GameRoom := (placePiece room2 5 1 rowShape 3 0 0).1

/-- Player 2 leaves: back to `waiting`, but `turnIndex` stays 1. -/
def room4 : GameRoom := (removePlayer room3 6 2).1

/-- Player 3 joins the one-player room: the game restarts. -/
def room5 : GameRoom := (addPlayer room4 7 3 "carol").1

/-- Player 1 re-joins under its own identity instead. -/
def room5b : GameRoom := (addPlayer room4 7 1 "alice").1

/-- Player 1 re-joins the fresh one-player room under the same identity:
the roster stays at one player but the turn order becomes `[1, 1]`. -/
def roomRejoin : GameRoom := (addPlayer room1 0 1 "alice").1

/-- Player 2 then joins: a playing room with two joined players whose turn
order is the duplicated `[1, 1, 2]`; player 1 is active. -/
def roomDup : GameRoom := (addPlayer roomRejoin 0 2 "bob").1

/-- Four consecutive successful placements in the duplicated-order room:
by player 1, player 1 again, player 2, then player 1. -/
def dupPlace1 : GameRoom × PlaceResult := placePiece roomDup 5 1 [[1]] 3 0 0

def dupPlace2 : GameRoom × PlaceResult := placePiece dupPlace1.1 6 1 [[1]] 3 1 0

def dupPlace3 : GameRoom × PlaceResult := placePiece dupPlace2.1 7 2 [[1]] 3 2 0

def dupPlace4 : GameRoom × PlaceResult := placePiece dupPlace3.1 8 1 [[1]] 3 3 0

/-- The invariant shape of a running two-player room that drives strict turn
alternation. -/
def TwoPlayerPlaying (r : GameRoom) : Prop :=
  r.players.length = 2 ∧ r.turnOrder.length = 2 ∧ r.turnOrder.Nodup ∧
  r.turnIndex < 2 ∧
  r.activePlayerId = some (r.turnOrder.getD r.turnIndex 0) ∧
  r.gameState = .playing

instance (r : GameRoom) : Decidable (TwoPlayerPlaying r) := by
  unfold TwoPlayerPlaying
  infer_instance

/-- Matrix `m` is a rectangular `rows × cols` matrix. -/
def RectM (m : ShapeM) (rows cols : Nat) : Prop :=
  m.length = rows ∧ ∀ row ∈ m, row.length = cols

instance (m : ShapeM) (rows cols : Nat) : Decidable (RectM m rows cols) := by
  unfold RectM
  infer_instance

/-- Room states reachable from a fresh room by any sequence of joins,
leaves, placements, resets and ticks. -/
inductive Reachable : GameRoom → Prop where
  | init (id : String) (now : Nat) (supply : Nat → Piece) :
      Reachable (initRoom id now supply)
  | add (r : GameRoom) (now sid : Nat) (name : String) :
      Reachable r → Reachable (addPlayer r now sid name).1
  | remove (r : GameRoom) (now sid : Nat) :
      Reachable r → Reachable (removePlayer r now sid).1
  | place (r : GameRoom) (now sid : Nat) (shape : ShapeM) (color : Nat)
      (x y : Int) :
      Reachable r → Reachable (placePiece r now sid shape color x y).1
  | reset (r : GameRoom) (now : Nat) : Reachable r → Reachable (resetRoom r now)
  | tick (r : GameRoom) (now : Nat) : Reachable r → Reachable (tickRoom r now)

/-- The inductive invariant: at most two players; an active player implies a
full room; `waiting` has no active player and no deadline; `playing` has an
active player and a deadline. -/
def InvFull (r : GameRoom) : Prop :=
  r.players.length ≤ 2 ∧
  (r.activePlayerId.isSome = true → r.players.length = 2) ∧
  (r.gameState = .waiting → r.activePlayerId = none ∧ r.turnEndsAt = 0) ∧
  (r.gameState = .playing → r.activePlayerId.isSome = true ∧ r.turnEndsAt ≠ 0)

/-- The claimed invariant: a deadline is set iff exactly one active player
exists and the room is playing; `waiting` clears both. -/
def DeadlineInv (r : GameRoom) : Prop :=
  (r.turnEndsAt ≠ 0 ↔ r.activePlayerId.isSome = true ∧ r.gameState = .playing) ∧
  (r.gameState = .waiting → r.activePlayerId = none ∧ r.turnEndsAt = 0)

/-- How scores behave at a room: every score is a non-negative multiple of
100; an accepted join (re)creates the joining identity's entry with score 0
and leaves everyone else's entry alone; a successful placement adds exactly
`100 × rowsCleared` to the placer and nothing to anyone else; leave and tick
never change a remaining entry; reset zeroes every score. -/
def ScoreBehavior (r : GameRoom) : Prop :=
  (∀ e ∈ r.players, 100 ∣ e.2.score) ∧
  (∀ now sid name, (addPlayer r now sid name).2 = true →
    getA (addPlayer r now sid name).1.players sid = some ⟨sid, name, 0⟩) ∧
  (∀ now sid name k, k ≠ sid →
    getA (addPlayer r now sid name).1.players k = getA r.players k) ∧
  (∀ now sid shape color x y n p,
    (placePiece r now sid shape color x y).2 = .ok n →
    getA r.players sid = some p →
    getA (placePiece r now sid shape color x y).1.players sid =
      some { p with score := p.score + n * 100 }) ∧
  (∀ now sid shape color x y k, k ≠ sid →
    getA (placePiece r now sid shape color x y).1.players k =
      getA r.players k) ∧
  (∀ now sid k, k ≠ sid →
    getA (removePlayer r now sid).1.players k = getA r.players k) ∧
  (∀ now k, getA (tickRoom r now).players k = getA r.players k) ∧
  (∀ now k p, getA (resetRoom r now).players k = some p → p.score = 0)

/-! ## Association-list lemmas -/

theorem getA_setA {α : Type} (l : List (Nat × α)) (k k' : Nat) (v : α) :
    getA (setA l k v) k' = if k = k' then some v else getA l k' := by
  induction l with
  | nil => simp [setA, getA]
  | cons e t ih =>
    obtain ⟨ek, ev⟩ := e
    by_cases hek : ek = k
    · subst hek
      simp only [setA, if_pos rfl, getA]
      by_cases hkk : ek = k' <;> simp [hkk]
    · rw [setA, if_neg hek]
      by_cases hek' : ek = k'
      · subst hek'
        rw [getA, if_pos rfl, if_neg (fun hh => hek hh.symm), getA, if_pos rfl]
      · rw [getA, if_neg hek', ih, getA, if_neg hek']

theorem getA_delA_ne {α : Type} (l : List (Nat × α)) (k k' : Nat) (h : k ≠ k') :
    getA (delA l k) k' = getA l k' := by
  induction l with
  | nil => simp [delA]
  | cons e t ih =>
    obtain ⟨ek, ev⟩ := e
    by_cases hek : ek = k
    · subst hek
      rw [delA, if_pos rfl, getA, if_neg h]
    · simp only [delA, if_neg hek, getA, ih]

theorem getA_mem {α : Type} {l : List (Nat × α)} {k : Nat} {v : α}
    (h : getA l k = some v) : (k, v) ∈ l := by
  induction l with
  | nil => simp [getA] at h
  | cons e t ih =>
    obtain ⟨ek, ev⟩ := e
    by_cases hek : ek = k
    · subst hek
      rw [getA, if_pos rfl] at h
      rw [Option.some.injEq] at h
      subst h
      exact List.mem_cons_self _ _
    · rw [getA, if_neg hek] at h
      exact List.mem_cons_of_mem _ (ih h)

theorem mem_setA {α : Type} {l : List (Nat × α)} {k : Nat} {v : α}
    {e : Nat × α} (h : e ∈ setA l k v) : e = (k, v) ∨ e ∈ l := by
  induction l with
  | nil => simpa [setA] using h
  | cons e0 t ih =>
    obtain ⟨ek, ev⟩ := e0
    by_cases hek : ek = k
    · subst hek
      rw [setA, if_pos rfl] at h
      rcases List.mem_cons.mp h with h1 | h1
      · exact Or.inl (by simp [h1])
      · exact Or.inr (List.mem_cons_of_mem _ h1)
    · rw [setA, if_neg hek] at h
      rcases List.mem_cons.mp h with h1 | h1
      · exact Or.inr (by simp [h1])
      · rcases ih h1 with h2 | h2
        · exact Or.inl h2
        · exact Or.inr (List.mem_cons_of_mem _ h2)

theorem length_setA_of_has {α : Type} (l : List (Nat × α)) (k : Nat) (v : α)
    (h : hasA l k = true) : (setA l k v).length = l.length := by
  induction l with
  | nil => simp [hasA, getA] at h
  | cons e t ih =>
    obtain ⟨ek, ev⟩ := e
    by_cases hek : ek = k
    · simp [setA, hek]
    · simp only [hasA, getA, if_neg hek] at h
      simp [setA, if_neg hek, ih h]

theorem length_setA_of_not {α : Type} (l : List (Nat × α)) (k : Nat) (v : α)
    (h : hasA l k = false) : (setA l k v).length = l.length + 1 := by
  induction l with
  | nil => simp [setA]
  | cons e t ih =>
    obtain ⟨ek, ev⟩ := e
    by_cases hek : ek = k
    · subst hek
      simp [hasA, getA] at h
    · simp only [hasA, getA, if_neg hek] at h
      simp [setA, if_neg hek, ih h]

theorem delA_sublist {α : Type} (l : List (Nat × α)) (k : Nat) :
    (delA l k).Sublist l := by
  induction l with
  | nil => simp [delA]
  | cons e t ih =>
    obtain ⟨ek, ev⟩ := e
    by_cases hek : ek = k
    · subst hek
      rw [delA, if_pos rfl]
      exact List.sublist_cons_self _ _
    · rw [delA, if_neg hek]
      exact ih.cons₂ (ek, ev)

theorem length_delA_le {α : Type} (l : List (Nat × α)) (k : Nat) :
    (delA l k).length ≤ l.length :=
  (delA_sublist l k).length_le

/-! ## List helpers -/

theorem getD_range_map {β : Type} (n : Nat) (f : Nat → β) (i : Nat)
    (hi : i < n) (d : β) : (((List.range n).map f).getD i d) = f i := by
  rw [List.getD_eq_getElem _ _ (by simp [hi])]
  simp

/-! ## Board specifications -/

/-- Predicate `canPlace` holds exactly when every occupied offset of the shape lands on
an in-bounds, empty cell (C2). -/
theorem canPlace_iff (g : Grid) (shape : ShapeM) (x y : Int) :
    canPlace g shape x y = true ↔
      ∀ ry rx, occAt shape ry rx →
        0 ≤ x + rx ∧ x + rx < 10 ∧ 0 ≤ y + ry ∧ y + ry < 10 ∧
          g (y + ry).toNat (x + rx).toNat = none := by
  unfold canPlace occAt
  simp only [List.all_eq_true, List.mem_range, GRID_ROWS, GRID_COLS]
  constructor
  · intro h ry rx hocc
    obtain ⟨h1, h2, h3⟩ := hocc
    have := h ry h1 rx h2
    rw [if_neg h3] at this
    simp only [Bool.and_eq_true, decide_eq_true_eq, Option.isNone_iff_eq_none] at this
    exact ⟨this.1.1.1.1, this.1.1.2, this.1.1.1.2, this.1.2, this.2⟩
  · intro h ry h1 rx h2
    by_cases h3 : entryM shape ry rx = 0
    · rw [if_pos h3]
    · rw [if_neg h3]
      obtain ⟨b1, b2, b3, b4, b5⟩ := h ry rx ⟨h1, h2, h3⟩
      simp only [Bool.and_eq_true, decide_eq_true_eq, Option.isNone_iff_eq_none]
      exact ⟨⟨⟨⟨b1, b3⟩, b2⟩, b4⟩, b5⟩

theorem updateCell_apply (g : Grid) (r c r' c' : Nat) (v : Option Nat) :
    updateCell g r c v r' c' = if r' = r ∧ c' = c then v else g r' c' := rfl

/-- The inner placement loop over one shape row, characterized pointwise. -/
theorem placeRow_apply (shape : ShapeM) (ry : Nat) (x y : Int) (color : Nat)
    (g : Grid) (n : Nat)
    (hb : ∀ rx, rx < n → entryM shape ry rx ≠ 0 → 0 ≤ x + rx ∧ 0 ≤ y + ry)
    (r c : Nat) :
    ((List.range n).foldl
        (fun g2 rx =>
          if entryM shape ry rx = 0 then g2
          else updateCell g2 (y + ry).toNat (x + rx).toNat (some color)) g) r c
      = if (∃ rx < n, entryM shape ry rx ≠ 0 ∧
              x + rx = (c : Int) ∧ y + ry = (r : Int))
        then some color else g r c := by
  induction n with
  | zero => simp
  | succ n ih =>
    rw [List.range_succ, List.foldl_append]
    simp only [List.foldl_cons, List.foldl_nil]
    by_cases he : entryM shape ry n = 0
    · rw [if_pos he]
      rw [ih (fun rx hrx => hb rx (Nat.lt_succ_of_lt hrx))]
      congr 1
      · apply propext
        constructor
        · rintro ⟨rx, hrx, hne, hxy⟩
          exact ⟨rx, Nat.lt_succ_of_lt hrx, hne, hxy⟩
        · rintro ⟨rx, hrx, hne, hxy⟩
          rcases Nat.lt_succ_iff_lt_or_eq.mp hrx with hlt | rfl
          · exact ⟨rx, hlt, hne, hxy⟩
          · exact absurd he hne
    · rw [if_neg he]
      rw [updateCell_apply,
        ih (fun rx hrx => hb rx (Nat.lt_succ_of_lt hrx))]
      obtain ⟨hbx, hby⟩ := hb n (Nat.lt_succ_self n) he
      by_cases hm : r = (y + ry).toNat ∧ c = (x + (n : Int)).toNat
      · rw [if_pos hm]
        rw [if_pos ?_]
        exact ⟨n, Nat.lt_succ_self n, he, by omega, by omega⟩
      · rw [if_neg hm]
        by_cases hp : ∃ rx < n, entryM shape ry rx ≠ 0 ∧
            x + rx = (c : Int) ∧ y + ry = (r : Int)
        · rw [if_pos hp, if_pos ?_]
          obtain ⟨rx, hrx, hne, hxy⟩ := hp
          exact ⟨rx, Nat.lt_succ_of_lt hrx, hne, hxy⟩
        · rw [if_neg hp, if_neg ?_]
          rintro ⟨rx, hrx, hne, hx1, hy1⟩
          rcases Nat.lt_succ_iff_lt_or_eq.mp hrx with hlt | rfl
          · exact hp ⟨rx, hlt, hne, hx1, hy1⟩
          · exact hm ⟨by omega, by omega⟩

/-- The full placement loop, characterized pointwise. -/
theorem placeShape_apply (shape : ShapeM) (x y : Int) (color : Nat) (g : Grid)
    (hb : ∀ ry rx, occAt shape ry rx → 0 ≤ x + rx ∧ 0 ≤ y + ry)
    (r c : Nat) :
    placeShape shape x y color g r c
      = if coversCell shape x y r c then some color else g r c := by
  unfold placeShape coversCell
  suffices h : ∀ m, m ≤ shape.length →
      ((List.range m).foldl
        (fun g1 ry =>
          (List.range ((shape.getD ry []).length)).foldl
            (fun g2 rx =>
              if entryM shape ry rx = 0 then g2
              else updateCell g2 (y + ry).toNat (x + rx).toNat (some color))
            g1) g) r c
      = if (∃ ry < m, ∃ rx < (shape.getD ry []).length,
              entryM shape ry rx ≠ 0 ∧ x + rx = (c : Int) ∧ y + ry = (r : Int))
        then some color else g r c by
    exact h shape.length (Nat.le_refl _)
  intro m hm
  induction m with
  | zero => simp
  | succ m ih =>
    rw [List.range_succ, List.foldl_append]
    simp only [List.foldl_cons, List.foldl_nil]
    rw [placeRow_apply shape m x y color _ _
      (fun rx hrx hne => hb m rx ⟨Nat.lt_of_succ_le hm, hrx, hne⟩)]
    rw [ih (Nat.le_of_succ_le hm)]
    by_cases hrow : ∃ rx < (shape.getD m []).length,
        entryM shape m rx ≠ 0 ∧ x + rx = (c : Int) ∧ y + m = (r : Int)
    · rw [if_pos hrow, if_pos ?_]
      obtain ⟨rx, hrx, hne, hxy⟩ := hrow
      exact ⟨m, Nat.lt_succ_self m, rx, hrx, hne, hxy⟩
    · rw [if_neg hrow]
      by_cases hprev : ∃ ry < m, ∃ rx < (shape.getD ry []).length,
          entryM shape ry rx ≠ 0 ∧ x + rx = (c : Int) ∧ y + ry = (r : Int)
      · rw [if_pos hprev, if_pos ?_]
        obtain ⟨ry, hry, rest⟩ := hprev
        exact ⟨ry, Nat.lt_succ_of_lt hry, rest⟩
      · rw [if_neg hprev, if_neg ?_]
        rintro ⟨ry, hry, rest⟩
        rcases Nat.lt_succ_iff_lt_or_eq.mp hry with hlt | rfl
        · exact hprev ⟨ry, hlt, rest⟩
        · exact hrow rest

theorem rowFull_congr {g1 g2 : Grid} {row : Nat}
    (h : ∀ c, g1 row c = g2 row c) : rowFull g1 row = rowFull g2 row := by
  unfold rowFull
  congr 1
  funext col
  rw [h col]

theorem clearRow_apply (g : Grid) (row r c : Nat) :
    clearRow g row r c = if r = row ∧ c < GRID_COLS then none else g r c := by
  unfold clearRow
  suffices h : ∀ n, ((List.range n).foldl
      (fun g2 col => updateCell g2 row col none) g) r c
      = if r = row ∧ c < n then none else g r c by
    exact h GRID_COLS
  intro n
  induction n with
  | zero => simp
  | succ n ih =>
    rw [List.range_succ, List.foldl_append]
    simp only [List.foldl_cons, List.foldl_nil]
    rw [updateCell_apply, ih]
    by_cases hm : r = row ∧ c = n
    · rw [if_pos hm, if_pos ⟨hm.1, by omega⟩]
    · rw [if_neg hm]
      by_cases hp : r = row ∧ c < n
      · rw [if_pos hp, if_pos ⟨hp.1, by omega⟩]
      · rw [if_neg hp, if_neg ?_]
        rintro ⟨rfl, hc⟩
        rcases Nat.lt_succ_iff_lt_or_eq.mp hc with hlt | rfl
        · exact hp ⟨rfl, hlt⟩
        · exact hm ⟨rfl, rfl⟩

/-- The row-clearing scan over any duplicate-free list of row indices:
the cleared count and the final grid, in terms of the starting grid.
Clearing a row only touches that row, so fullness of the remaining rows is
unaffected as the scan proceeds. -/
theorem clearSteps_spec (L : List Nat) (hnd : L.Nodup) (g : Grid) (k : Nat) :
    (L.foldl clearStep (g, k)).2 = k + (L.filter fun row => rowFull g row).length ∧
    ∀ r c, (L.foldl clearStep (g, k)).1 r c
      = if r ∈ L ∧ rowFull g r = true ∧ c < GRID_COLS then none else g r c := by
  induction L generalizing g k with
  | nil => simp
  | cons a t ih =>
    have hat : a ∉ t := (List.nodup_cons.mp hnd).1
    have hndt : t.Nodup := (List.nodup_cons.mp hnd).2
    simp only [List.foldl_cons]
    by_cases hfa : rowFull g a = true
    · have hstep : clearStep (g, k) a = (clearRow g a, k + 1) := by
        unfold clearStep
        rw [if_pos hfa]
      rw [hstep]
      have hcong : ∀ row ∈ t, rowFull (clearRow g a) row = rowFull g row := by
        intro row hrow
        apply rowFull_congr
        intro c
        rw [clearRow_apply]
        rw [if_neg ?_]
        rintro ⟨rfl, _⟩
        exact hat hrow
      obtain ⟨ihc, ihg⟩ := ih hndt (clearRow g a) (k + 1)
      constructor
      · rw [ihc, List.filter_congr hcong, List.filter_cons_of_pos hfa]
        simp only [List.length_cons]
        omega
      · intro r c
        rw [ihg r c]
        by_cases hrt : r ∈ t
        · rw [@rowFull_congr (clearRow g a) g r
            (fun cc => by
              rw [clearRow_apply, if_neg ?_]
              rintro ⟨rfl, _⟩
              exact hat hrt)]
          by_cases hfc : rowFull g r = true ∧ c < GRID_COLS
          · rw [if_pos ⟨hrt, hfc.1, hfc.2⟩, if_pos ⟨List.mem_cons_of_mem _ hrt, hfc.1, hfc.2⟩]
          · rw [if_neg (fun hh => hfc ⟨hh.2.1, hh.2.2⟩), clearRow_apply]
            have hra : r ≠ a := fun hh => hat (hh ▸ hrt)
            rw [if_neg (fun hh => hra hh.1),
              if_neg (fun hh => hfc ⟨hh.2.1, hh.2.2⟩)]
        · rw [if_neg (fun hh => hrt hh.1), clearRow_apply]
          by_cases hra : r = a
          · subst hra
            by_cases hc : c < GRID_COLS
            · rw [if_pos ⟨rfl, hc⟩, if_pos ⟨List.mem_cons_self _ _, hfa, hc⟩]
            · rw [if_neg (fun hh => hc hh.2), if_neg (fun hh => hc hh.2.2)]
          · rw [if_neg (fun hh => hra hh.1), if_neg ?_]
            rintro ⟨hmem, hfull, hc⟩
            rcases List.mem_cons.mp hmem with rfl | hmem'
            · exact hra rfl
            · exact hrt hmem'
    · have hstep : clearStep (g, k) a = (g, k) := by
        unfold clearStep
        rw [if_neg hfa]
      rw [hstep]
      obtain ⟨ihc, ihg⟩ := ih hndt g k
      constructor
      · rw [ihc, List.filter_cons_of_neg (by simpa using hfa)]
      · intro r c
        rw [ihg r c]
        by_cases hrt : r ∈ t
        · by_cases hfc : rowFull g r = true ∧ c < GRID_COLS
          · rw [if_pos ⟨hrt, hfc.1, hfc.2⟩, if_pos ⟨List.mem_cons_of_mem _ hrt, hfc.1, hfc.2⟩]
          · rw [if_neg (fun hh => hfc ⟨hh.2.1, hh.2.2⟩),
              if_neg (fun hh => hfc ⟨hh.2.1, hh.2.2⟩)]
        · rw [if_neg (fun hh => hrt hh.1), if_neg ?_]
          rintro ⟨hmem, hfull, hc⟩
          rcases List.mem_cons.mp hmem with rfl | hmem'
          · exact hfa hfull
          · exact hrt hmem'

/-- The count returned by the clearing pass is the number of full rows of the
grid right after placement. -/
theorem clearFullRows_snd (g : Grid) :
    (clearFullRows g).2 = countFullRows g := by
  unfold clearFullRows countFullRows
  simpa using (clearSteps_spec (List.range GRID_ROWS) (List.nodup_range _) g 0).1

/-- The grid after the clearing pass: full rows are reset in place, all other
cells keep their previous contents (no row removed, no shifting). -/
theorem clearFullRows_fst (g : Grid) (r c : Nat) :
    (clearFullRows g).1 r c
      = if r < GRID_ROWS ∧ rowFull g r = true ∧ c < GRID_COLS
        then none else g r c := by
  unfold clearFullRows
  rw [(clearSteps_spec (List.range GRID_ROWS) (List.nodup_range _) g 0).2 r c]
  simp [List.mem_range]

/-! ## Turn-scheduler lemmas -/

/-- Running `startTurn` in the failure case: fewer than two players (or an empty turn
order) falls back to `waiting`, clearing the active player and deadline. -/
theorem startTurn_fail (r : GameRoom) (now : Nat)
    (h : r.turnOrder.length = 0 ∨ r.players.length < 2) :
    startTurn r now =
      { r with activePlayerId := none, turnEndsAt := 0, gameState := .waiting } := by
  unfold startTurn
  rw [if_pos h]

/-- Running `startTurn` in the normal case: the turn index is reset only when it ran
past the turn order, `turnOrder[turnIndex]` becomes active, the deadline is
set, the state becomes `playing`, and a piece is assigned to the new active
player; roster, grid and last activity are untouched. -/
theorem startTurn_spec (r : GameRoom) (now : Nat)
    (h1 : r.turnOrder.length ≠ 0) (h2 : 2 ≤ r.players.length) :
    (startTurn r now).activePlayerId =
      some (r.turnOrder.getD
        (if r.turnOrder.length ≤ r.turnIndex then 0 else r.turnIndex) 0) ∧
    (startTurn r now).turnEndsAt = now + turnDurationMs ∧
    (startTurn r now).gameState = .playing ∧
    (startTurn r now).turnOrder = r.turnOrder ∧
    (startTurn r now).turnIndex =
      (if r.turnOrder.length ≤ r.turnIndex then 0 else r.turnIndex) ∧
    (startTurn r now).players = r.players ∧
    (startTurn r now).grid = r.grid ∧
    (startTurn r now).lastActivity = r.lastActivity ∧
    ∃ pc : Piece, (startTurn r now).assignedPieceByPlayer =
      setA r.assignedPieceByPlayer
        (r.turnOrder.getD
          (if r.turnOrder.length ≤ r.turnIndex then 0 else r.turnIndex) 0)
        (some pc) := by
  unfold startTurn
  rw [if_neg (by omega)]
  simp only [replenishQueue]
  split
  · exact ⟨rfl, rfl, rfl, rfl, rfl, rfl, rfl, rfl, _, rfl⟩
  · exact ⟨rfl, rfl, rfl, rfl, rfl, rfl, rfl, rfl, _, rfl⟩

/-- Function `startTurn` never changes the roster, the grid or the activity stamp. -/
theorem startTurn_frame (r : GameRoom) (now : Nat) :
    (startTurn r now).players = r.players ∧
    (startTurn r now).grid = r.grid ∧
    (startTurn r now).lastActivity = r.lastActivity ∧
    (startTurn r now).turnOrder = r.turnOrder := by
  unfold startTurn
  split
  · exact ⟨rfl, rfl, rfl, rfl⟩
  · simp only [replenishQueue]
    split <;> exact ⟨rfl, rfl, rfl, rfl⟩

/-- Function `advanceTurn` never changes the roster, the grid or the activity stamp. -/
theorem advanceTurn_frame (r : GameRoom) (now : Nat) :
    (advanceTurn r now).players = r.players ∧
    (advanceTurn r now).grid = r.grid ∧
    (advanceTurn r now).lastActivity = r.lastActivity ∧
    (advanceTurn r now).turnOrder = r.turnOrder := by
  unfold advanceTurn
  split
  · exact ⟨rfl, rfl, rfl, rfl⟩
  · exact startTurn_frame _ now

/-! ## `placePiece` branch lemmas -/

theorem placePiece_success_eq (r : GameRoom) (now sid : Nat) (shape : ShapeM)
    (color : Nat) (x y : Int)
    (hmem : hasA r.players sid = true)
    (hact : ¬(r.activePlayerId.isSome ∧ r.activePlayerId ≠ some sid))
    (hst : r.gameState = .playing)
    (hcan : canPlace r.grid shape x y = true) :
    placePiece r now sid shape color x y =
      (advanceTurn
        { r with
          grid := (clearFullRows (placeShape shape x y color r.grid)).1
          players :=
            if 0 < (clearFullRows (placeShape shape x y color r.grid)).2 then
              match getA r.players sid with
              | some p => setA r.players sid
                  { p with score :=
                      p.score + (clearFullRows (placeShape shape x y color r.grid)).2 * 100 }
              | none => r.players
            else r.players
          lastActivity := now
          assignedPieceByPlayer := setA r.assignedPieceByPlayer sid none } now,
       .ok (clearFullRows (placeShape shape x y color r.grid)).2) := by
  unfold placePiece
  rw [if_neg (by simp [hmem]), if_neg hact, if_neg (by simp [hst]),
    if_neg (by simp [hcan])]

/-- C4 groundwork: every rejected `placePiece` leaves the room untouched. -/
theorem placePiece_rejected_frame (r : GameRoom) (now sid : Nat)
    (shape : ShapeM) (color : Nat) (x y : Int) (reason : RejectReason)
    (h : (placePiece r now sid shape color x y).2 = .rejected reason) :
    (placePiece r now sid shape color x y).1 = r := by
  unfold placePiece at h ⊢
  by_cases h1 : hasA r.players sid = false
  · rw [if_pos h1]
  · rw [if_neg h1] at h ⊢
    by_cases h2 : r.activePlayerId.isSome ∧ r.activePlayerId ≠ some sid
    · rw [if_pos h2]
    · rw [if_neg h2] at h ⊢
      by_cases h3 : r.gameState ≠ GState.playing
      · rw [if_pos h3]
      · rw [if_neg h3] at h ⊢
        by_cases h4 : canPlace r.grid shape x y = false
        · rw [if_pos h4]
        · rw [if_neg h4] at h
          simp at h

/-! ## Claims -/

/-- C2: `canPlace(shape, x, y)` is true iff every occupied offset `(rx, ry)`
of the shape maps to a cell `(x+rx, y+ry)` inside `[0,10)×[0,10)` that is
empty; in particular any out-of-bounds occupied offset forces `false`. -/
theorem claim_C2 (g : Grid) (shape : ShapeM) (x y : Int) :
    (canPlace g shape x y = true ↔
      ∀ ry rx, occAt shape ry rx →
        0 ≤ x + rx ∧ x + rx < 10 ∧ 0 ≤ y + ry ∧ y + ry < 10 ∧
          g (y + ry).toNat (x + rx).toNat = none) ∧
    (∀ ry rx, occAt shape ry rx →
      (x + rx < 0 ∨ 10 ≤ x + rx ∨ y + ry < 0 ∨ 10 ≤ y + ry) →
      canPlace g shape x y = false) := by
  refine ⟨canPlace_iff g shape x y, ?_⟩
  intro ry rx hocc hout
  rcases hcp : canPlace g shape x y with _ | _
  · rfl
  · obtain ⟨b1, b2, b3, b4, _⟩ := (canPlace_iff g shape x y).mp hcp ry rx hocc
    omega

/-- Witness for C2 at a concrete input: a single-cell shape anchored at
`x = -1` is out of bounds, so `canPlace` returns false. -/
theorem claim_C2_witness : canPlace emptyGrid [[1]] (-1) 0 = false :=
  (claim_C2 emptyGrid [[1]] (-1) 0).2 0 0 (by decide) (by decide)

/-- C3: the rejection reason of `placePiece` follows the source's check
order: `not-in-room`, then `not-your-turn` (whenever an active player exists
and differs from the caller, regardless of the game state), then
`game-not-started`, then `invalid-placement`. -/
theorem claim_C3 (r : GameRoom) (now sid : Nat) (shape : ShapeM)
    (color : Nat) (x y : Int) :
    (hasA r.players sid = false →
      (placePiece r now sid shape color x y).2 = .rejected .notInRoom) ∧
    (∀ a, hasA r.players sid = true → r.activePlayerId = some a → a ≠ sid →
      (placePiece r now sid shape color x y).2 = .rejected .notYourTurn) ∧
    (hasA r.players sid = true →
      (r.activePlayerId = none ∨ r.activePlayerId = some sid) →
      r.gameState ≠ .playing →
      (placePiece r now sid shape color x y).2 = .rejected .gameNotStarted) ∧
    (hasA r.players sid = true →
      (r.activePlayerId = none ∨ r.activePlayerId = some sid) →
      r.gameState = .playing → canPlace r.grid shape x y = false →
      (placePiece r now sid shape color x y).2 = .rejected .invalidPlacement) := by
  refine ⟨?_, ?_, ?_, ?_⟩
  · intro h1
    unfold placePiece
    rw [if_pos h1]
  · intro a h1 h2 h3
    unfold placePiece
    rw [if_neg (by simp [h1]),
      if_pos ⟨by simp [h2], by simp [h2]; exact fun hh => h3 hh⟩]
  · intro h1 h2 h3
    unfold placePiece
    rw [if_neg (by simp [h1]), if_neg ?_, if_pos h3]
    rintro ⟨hs, hne⟩
    rcases h2 with h2 | h2
    · rw [h2] at hs
      simp at hs
    · exact hne h2
  · intro h1 h2 h3 h4
    unfold placePiece
    rw [if_neg (by simp [h1]), if_neg ?_, if_neg (by simp [h3]),
      if_pos h4]
    rintro ⟨hs, hne⟩
    rcases h2 with h2 | h2
    · rw [h2] at hs
      simp at hs
    · exact hne h2

/-- Witness for C3: in the running two-player room the non-active roster
member (player 2) is rejected with `not-your-turn`. -/
theorem claim_C3_witness :
    (placePiece room2 1 2 [[1]] 5 0 0).2 = .rejected .notYourTurn :=
  (claim_C3 room2 1 2 [[1]] 5 0 0).2.1 1 (by decide) (by decide) (by decide)

/-- C4: a rejected `placePiece` request leaves the room completely
unchanged — grid, scores, turn order, active player, deadline and the
assignment map included — so the player may retry with the same piece. -/
theorem claim_C4 (r : GameRoom) (now sid : Nat) (shape : ShapeM)
    (color : Nat) (x y : Int) (reason : RejectReason)
    (h : (placePiece r now sid shape color x y).2 = .rejected reason) :
    (placePiece r now sid shape color x y).1 = r :=
  placePiece_rejected_frame r now sid shape color x y reason h

/-- Witness for C4: the rejected request of an unknown player leaves the
empty room unchanged. -/
theorem claim_C4_witness : (placePiece room0 3 1 [[1]] 5 0 0).1 = room0 :=
  claim_C4 room0 3 1 [[1]] 5 0 0 .notInRoom (by decide)

/-- C1: a successful placement (playing room, active caller, `canPlace`
holds) writes the piece's color into exactly the occupied offsets of the
rotated shape, then resets every full row in place (all other cells keep
their contents — no row removal, no shifting), returns `ok` with the number
of rows cleared in that pass, and adds exactly `100 × rowsCleared` to the
placing player's score. -/
theorem claim_C1 (r : GameRoom) (now sid : Nat) (pieceShape : ShapeM)
    (color : Nat) (x y : Int) (rot : Int)
    (hmem : hasA r.players sid = true)
    (hact : r.activePlayerId = some sid)
    (hst : r.gameState = .playing)
    (hcan : canPlace r.grid (rotateMatrix pieceShape rot) x y = true) :
    (placeItem r now sid pieceShape color x y rot).2 =
      .ok (countFullRows (placeShape (rotateMatrix pieceShape rot) x y color r.grid)) ∧
    (∀ rr cc : Nat,
      placeShape (rotateMatrix pieceShape rot) x y color r.grid rr cc =
        if coversCell (rotateMatrix pieceShape rot) x y rr cc then some color
        else r.grid rr cc) ∧
    (∀ rr cc : Nat,
      (placeItem r now sid pieceShape color x y rot).1.grid rr cc =
        if rr < 10 ∧
            rowFull (placeShape (rotateMatrix pieceShape rot) x y color r.grid) rr = true ∧
            cc < 10
        then none
        else placeShape (rotateMatrix pieceShape rot) x y color r.grid rr cc) ∧
    (∀ p, getA r.players sid = some p →
      getA (placeItem r now sid pieceShape color x y rot).1.players sid =
        some { p with score :=
          p.score +
            countFullRows (placeShape (rotateMatrix pieceShape rot) x y color r.grid) * 100 }) := by
  have hact2 : ¬(r.activePlayerId.isSome ∧ r.activePlayerId ≠ some sid) := by
    rintro ⟨_, hne⟩
    exact hne hact
  have heq := placePiece_success_eq r now sid (rotateMatrix pieceShape rot)
    color x y hmem hact2 hst hcan
  have hitem : placeItem r now sid pieceShape color x y rot =
      placePiece r now sid (rotateMatrix pieceShape rot) color x y := rfl
  refine ⟨?_, ?_, ?_, ?_⟩
  · rw [hitem, heq, clearFullRows_snd]
  · intro rr cc
    apply placeShape_apply
    intro ry rx hocc
    obtain ⟨b1, _, b3, _, _⟩ := (canPlace_iff _ _ x y).mp hcan ry rx hocc
    exact ⟨b1, b3⟩
  · intro rr cc
    rw [hitem, heq]
    rw [(advanceTurn_frame _ now).2.1]
    exact clearFullRows_fst _ rr cc
  · intro p hp
    rw [hitem, heq]
    rw [(advanceTurn_frame _ now).1]
    by_cases h0 :
        0 < (clearFullRows (placeShape (rotateMatrix pieceShape rot) x y color r.grid)).2
    · rw [if_pos h0, hp, getA_setA, if_pos rfl, clearFullRows_snd]
    · rw [if_neg h0, hp]
      have hz :
          (clearFullRows (placeShape (rotateMatrix pieceShape rot) x y color r.grid)).2
            = 0 := by omega
      rw [clearFullRows_snd] at hz
      rw [hz]
      simp

/-- Witness for C1: player 1 places the single-cell shape at the origin of
the fresh two-player room; no row completes, so the result is `ok 0`. -/
theorem claim_C1_witness :
    (placeItem room2 5 1 [[1]] 3 0 0 0).2 =
      .ok (countFullRows (placeShape (rotateMatrix [[1]] 0) 0 0 3 room2.grid)) :=
  (claim_C1 room2 5 1 [[1]] 3 0 0 0 (by decide) (by decide) (by decide)
    (by decide)).1

/-- Function `advanceTurn` on a two-player room: the index flips to the other player,
that player becomes active with a fresh deadline and an assigned piece, and
roster, grid and turn order are untouched. -/
theorem advanceTurn_two (r : GameRoom) (now : Nat)
    (hto : r.turnOrder.length = 2) (hpl : r.players.length = 2) :
    (advanceTurn r now).activePlayerId =
      some (r.turnOrder.getD ((r.turnIndex + 1) % 2) 0) ∧
    (advanceTurn r now).turnIndex = (r.turnIndex + 1) % 2 ∧
    (advanceTurn r now).turnOrder = r.turnOrder ∧
    (advanceTurn r now).players = r.players ∧
    (advanceTurn r now).gameState = .playing ∧
    (advanceTurn r now).turnEndsAt = now + turnDurationMs ∧
    (advanceTurn r now).grid = r.grid ∧
    (∃ pc : Piece, (advanceTurn r now).assignedPieceByPlayer =
      setA r.assignedPieceByPlayer (r.turnOrder.getD ((r.turnIndex + 1) % 2) 0)
        (some pc)) := by
  rw [advanceTurn, if_neg (by omega)]
  have hmod : (r.turnIndex + 1) % r.turnOrder.length = (r.turnIndex + 1) % 2 := by
    rw [hto]
  rw [hmod]
  obtain ⟨s1, s2, s3, s4, s5, s6, s7, s8, s9⟩ :=
    startTurn_spec { r with turnIndex := (r.turnIndex + 1) % 2 }
      now (by dsimp only; omega) (by dsimp only; omega)
  dsimp only at s1 s2 s3 s4 s5 s6 s7 s8 s9
  have hm2 : (r.turnIndex + 1) % 2 < 2 := Nat.mod_lt _ (by omega)
  rw [if_neg (by omega)] at s1 s5 s9
  exact ⟨s1, s5, s4, s6, s3, s2, s7, s9⟩

/-- Advancing the turn of a two-player room with a consistent active pointer
re-establishes the invariant and strictly changes the active player. -/
theorem advanceTurn_flip (r : GameRoom) (now : Nat)
    (hpl : r.players.length = 2) (hto : r.turnOrder.length = 2)
    (hnd : r.turnOrder.Nodup) (hti : r.turnIndex < 2)
    (hact : r.activePlayerId = some (r.turnOrder.getD r.turnIndex 0)) :
    TwoPlayerPlaying (advanceTurn r now) ∧
    (advanceTurn r now).activePlayerId ≠ r.activePlayerId := by
  obtain ⟨a1, a2, a3, a4, a5, a6, a7, a8⟩ := advanceTurn_two r now hto hpl
  have hm2 : (r.turnIndex + 1) % 2 < 2 := Nat.mod_lt _ (by omega)
  refine ⟨⟨?_, ?_, ?_, ?_, ?_, ?_⟩, ?_⟩
  · rw [a4, hpl]
  · rw [a3, hto]
  · rw [a3]
    exact hnd
  · rw [a2]
    exact hm2
  · rw [a1, a2, a3]
  · exact a5
  · rw [a1, hact]
    obtain ⟨a, b, hab⟩ := List.length_eq_two.mp hto
    have hne : a ≠ b := by
      rw [hab] at hnd
      simpa using hnd
    intro hcontra
    rw [Option.some.injEq] at hcontra
    interval_cases hi : r.turnIndex
    · rw [hab] at hcontra
      simp at hcontra
      exact hne hcontra.symm
    · rw [hab] at hcontra
      simp at hcontra
      exact hne hcontra

/-- The roster after a successful placement keeps its length (the score
update rewrites an existing entry). -/
theorem players_after_success_length (r : GameRoom) (sid : Nat) (C : Nat)
    {p : Player} (hp : getA r.players sid = some p) :
    (if 0 < C then
        match getA r.players sid with
        | some q => setA r.players sid { q with score := q.score + C * 100 }
        | none => r.players
      else r.players).length = r.players.length := by
  split
  · rw [hp]
    exact length_setA_of_has _ _ _ (by unfold hasA; rw [hp]; rfl)
  · rfl

/-- C5 (amended): from a playing room with two joined players whose turn
order is exactly those two distinct players with the turn index selecting
the active player (the state a second, distinct join produces), every
successful placement strictly alternates the active player and
re-establishes the same shape — so any sequence of successful placements
alternates `activePlayerId` at every step.  (With a duplicated turn order
left by a same-identity re-join, alternation fails; see the
counterexample.) -/
theorem claim_C5 (r : GameRoom) (now sid : Nat) (shape : ShapeM)
    (color : Nat) (x y : Int) (n : Nat)
    (hI : TwoPlayerPlaying r)
    (hok : (placePiece r now sid shape color x y).2 = .ok n) :
    TwoPlayerPlaying (placePiece r now sid shape color x y).1 ∧
    (placePiece r now sid shape color x y).1.activePlayerId ≠
      r.activePlayerId := by
  obtain ⟨hpl, hto, hnd, hti, hact, hst⟩ := hI
  have hmem : hasA r.players sid = true := by
    by_cases h1 : hasA r.players sid = false
    · unfold placePiece at hok
      rw [if_pos h1] at hok
      simp at hok
    · simpa using h1
  have hact2 : ¬(r.activePlayerId.isSome ∧ r.activePlayerId ≠ some sid) := by
    intro h2
    unfold placePiece at hok
    rw [if_neg (by simp [hmem]), if_pos h2] at hok
    simp at hok
  have hcan : canPlace r.grid shape x y = true := by
    by_cases h4 : canPlace r.grid shape x y = false
    · unfold placePiece at hok
      rw [if_neg (by simp [hmem]), if_neg hact2, if_neg (by simp [hst]),
        if_pos h4] at hok
      simp at hok
    · simpa using h4
  obtain ⟨p, hp⟩ := Option.isSome_iff_exists.mp (by unfold hasA at hmem; exact hmem)
  have heq := placePiece_success_eq r now sid shape color x y hmem hact2 hst hcan
  rw [heq]
  exact advanceTurn_flip _ now
    ((players_after_success_length r sid
        ((clearFullRows (placeShape shape x y color r.grid)).2) hp).trans hpl)
    hto hnd hti hact

/-- Witness for C5 at the fresh two-player room: player 1's placement keeps
the invariant and makes player 2 active. -/
theorem claim_C5_witness :
    TwoPlayerPlaying (placePiece room2 5 1 [[1]] 3 0 0).1 ∧
    (placePiece room2 5 1 [[1]] 3 0 0).1.activePlayerId ≠
      room2.activePlayerId :=
  claim_C5 room2 5 1 [[1]] 3 0 0 0 (by decide) (by decide)

/-- C5 (counterexample to the claim as stated): the room reached by join 1,
re-join 1, join 2 is playing with two joined players but its turn order is
`[1, 1, 2]`.  All four placements below succeed, yet the first leaves
player 1 active (no alternation with the starting turn), and the active
players after the third and fourth placements are both player 1 — strict
alternation of `active(n)` fails. -/
theorem claim_C5_counterexample :
    roomDup.gameState = .playing ∧ roomDup.players.length = 2 ∧
    roomDup.turnOrder = [1, 1, 2] ∧ roomDup.activePlayerId = some 1 ∧
    dupPlace1.2 = .ok 0 ∧ dupPlace2.2 = .ok 0 ∧
    dupPlace3.2 = .ok 0 ∧ dupPlace4.2 = .ok 0 ∧
    dupPlace1.1.activePlayerId = some 1 ∧
    dupPlace3.1.activePlayerId = some 1 ∧
    dupPlace4.1.activePlayerId = some 1 := by
  decide

theorem getD_two_ne (l : List Nat) (h2 : l.length = 2) (hnd : l.Nodup)
    (i : Nat) (hi : i < 2) : l.getD ((i + 1) % 2) 0 ≠ l.getD i 0 := by
  obtain ⟨a, b, rfl⟩ := List.length_eq_two.mp h2
  have hne : a ≠ b := by simpa using hnd
  interval_cases i
  · simp
    exact fun hh => hne hh.symm
  · simp
    exact hne

/-- C6 (counterexample to the claim as stated): the tick guard is strict
(`now > turnEndsAt`), so a tick processed exactly at the deadline of a
playing two-player room leaves the room — in particular the active
player — completely unchanged instead of advancing the turn once.
Moreover, in the reachable playing two-player room with the duplicated turn
order `[1, 1, 2]` (join 1, re-join 1, join 2), even a tick strictly after
the deadline leaves player 1 active: the turn advances but the active
player does not flip. -/
theorem claim_C6_counterexample :
    room2.gameState = .playing ∧ room2.players.length = 2 ∧
    room2.turnEndsAt = 30000 ∧ room2.activePlayerId = some 1 ∧
    tickRoom room2 30000 = room2 ∧
    roomDup.gameState = .playing ∧ roomDup.players.length = 2 ∧
    roomDup.activePlayerId = some 1 ∧
    (tickRoom roomDup (roomDup.turnEndsAt + 1)).activePlayerId = some 1 := by
  refine ⟨by decide, by decide, by decide, by decide, rfl, by decide,
    by decide, by decide, by decide⟩

/-- C6 (amended): a tick processed strictly after the deadline of a playing
room with two joined players whose turn order is exactly those two distinct
players (turn index selecting the active player) advances the turn exactly
once — the active player's assigned piece is discarded without scoring, the
active player flips, a new piece is assigned and the deadline is reset —
leaving every score and the entire grid unchanged.  A tick at or before the
deadline changes nothing, and with a duplicated turn order left by a
same-identity re-join the strictly-late tick can leave the same player
active (see the counterexample). -/
theorem claim_C6 (r : GameRoom) (now : Nat) (hI : TwoPlayerPlaying r)
    (hlt : r.turnEndsAt < now) :
    TwoPlayerPlaying (tickRoom r now) ∧
    (tickRoom r now).activePlayerId ≠ r.activePlayerId ∧
    (tickRoom r now).turnEndsAt = now + turnDurationMs ∧
    (tickRoom r now).grid = r.grid ∧
    (tickRoom r now).players = r.players ∧
    getA (tickRoom r now).assignedPieceByPlayer
      (r.turnOrder.getD r.turnIndex 0) = some none ∧
    (∃ pc : Piece, getA (tickRoom r now).assignedPieceByPlayer
      (r.turnOrder.getD ((r.turnIndex + 1) % 2) 0) = some (some pc)) := by
  obtain ⟨hpl, hto, hnd, hti, hact, hst⟩ := hI
  have hcur : r.activePlayerId.getD 0 = r.turnOrder.getD r.turnIndex 0 := by
    rw [hact]
    rfl
  have hred : tickRoom r now =
      advanceTurn { r with assignedPieceByPlayer := setA r.assignedPieceByPlayer (r.activePlayerId.getD 0) none } now := by
    unfold tickRoom
    rw [if_neg (by rw [hact]; simp), if_neg ?_, if_pos hlt]
    rintro (hc | hc)
    · exact hc hst
    · omega
  rw [hred]
  obtain ⟨a1, a2, a3, a4, a5, a6, a7, a8⟩ :=
    advanceTurn_two { r with assignedPieceByPlayer := setA r.assignedPieceByPlayer (r.activePlayerId.getD 0) none } now hto hpl
  dsimp only at a1 a2 a3 a4 a5 a6 a7 a8
  have hflip :=
    advanceTurn_flip { r with assignedPieceByPlayer := setA r.assignedPieceByPlayer (r.activePlayerId.getD 0) none } now hpl hto hnd hti hact
  have hnewne : r.turnOrder.getD ((r.turnIndex + 1) % 2) 0 ≠
      r.turnOrder.getD r.turnIndex 0 := getD_two_ne r.turnOrder hto hnd _ hti
  obtain ⟨pc, hpc⟩ := a8
  refine ⟨hflip.1, hflip.2, a6, a7, a4, ?_, ⟨pc, ?_⟩⟩
  · rw [hpc, getA_setA, if_neg hnewne, hcur, getA_setA, if_pos rfl]
  · rw [hpc, getA_setA, if_pos rfl]

/-- Witness for the amended C6: one millisecond past the deadline the tick
flips the active player while preserving the roster and grid. -/
theorem claim_C6_witness :
    (tickRoom room2 30001).activePlayerId ≠ room2.activePlayerId ∧
    (tickRoom room2 30001).grid = room2.grid ∧
    (tickRoom room2 30001).players = room2.players := by
  have h := claim_C6 room2 30001 (by decide) (by decide)
  exact ⟨h.2.1, h.2.2.2.1, h.2.2.2.2.1⟩

/-! ## Rotation lemmas (C7) -/

theorem headD_length {m : ShapeM} {rows cols : Nat} (h : RectM m rows cols)
    (hr : 0 < rows) : (m.headD []).length = cols := by
  obtain ⟨hlen, hall⟩ := h
  cases m with
  | nil =>
    rw [List.length_nil] at hlen
    omega
  | cons a t => exact hall a (List.mem_cons_self _ _)

theorem rotateOnce_rect {m : ShapeM} {rows cols : Nat}
    (h : RectM m rows cols) (hr : 0 < rows) :
    RectM (rotateOnce m) cols rows := by
  constructor
  · unfold rotateOnce
    rw [List.length_map, List.length_range, headD_length h hr]
  · intro row hrow
    unfold rotateOnce at hrow
    rw [List.mem_map] at hrow
    obtain ⟨x, _, rfl⟩ := hrow
    rw [List.length_map, List.length_range, h.1]

theorem rotateOnce_entry {m : ShapeM} {rows cols : Nat}
    (h : RectM m rows cols) (hr : 0 < rows)
    (i j : Nat) (hi : i < cols) (hj : j < rows) :
    entryM (rotateOnce m) i j = entryM m (rows - 1 - j) i := by
  have hcols : (m.headD []).length = cols := headD_length h hr
  show entryM
    ((List.range ((m.headD []).length)).map fun x =>
      (List.range m.length).map fun j => entryM m (m.length - 1 - j) x) i j
    = entryM m (rows - 1 - j) i
  rw [entryM, hcols, h.1, getD_range_map _ _ i hi, getD_range_map _ _ j hj]

theorem entryM_eq_get {m : ShapeM} (i j : Nat) (hi : i < m.length)
    (hj : j < (m.get ⟨i, hi⟩).length) :
    entryM m i j = (m.get ⟨i, hi⟩).get ⟨j, hj⟩ := by
  unfold entryM
  rw [List.getD_eq_getElem m [] hi, List.getD_eq_getElem _ 0 (by simpa using hj)]
  simp

theorem matExt {m1 m2 : ShapeM} {rows cols : Nat}
    (h1 : RectM m1 rows cols) (h2 : RectM m2 rows cols)
    (he : ∀ i j, i < rows → j < cols → entryM m1 i j = entryM m2 i j) :
    m1 = m2 := by
  apply List.ext_get (by rw [h1.1, h2.1])
  intro n hn1 hn2
  apply List.ext_get
  · rw [h1.2 _ (List.get_mem m1 n hn1), h2.2 _ (List.get_mem m2 n hn2)]
  · intro j hj1 hj2
    have hi : n < rows := h1.1 ▸ hn1
    have hjc : j < cols := by
      have := h1.2 _ (List.get_mem m1 n hn1)
      omega
    rw [← entryM_eq_get n j hn1 hj1, ← entryM_eq_get n j hn2 hj2]
    exact he n j hi hjc

theorem rotateOnce_four {m : ShapeM} {rows cols : Nat}
    (h : RectM m rows cols) (hr : 0 < rows) (hc : 0 < cols) :
    rotateOnce (rotateOnce (rotateOnce (rotateOnce m))) = m := by
  have h1 := rotateOnce_rect h hr
  have h2 := rotateOnce_rect h1 hc
  have h3 := rotateOnce_rect h2 hr
  have h4 := rotateOnce_rect h3 hc
  apply matExt h4 h
  intro i j hi hj
  rw [rotateOnce_entry h3 hc i j hi hj,
    rotateOnce_entry h2 hr _ _ (by omega) (by omega),
    rotateOnce_entry h1 hc _ _ (by omega) (by omega),
    rotateOnce_entry h hr _ _ (by omega) (by omega)]
  rw [show rows - 1 - (rows - 1 - i) = i from by omega,
    show cols - 1 - (cols - 1 - j) = j from by omega]

/-- C7: the rotation count is reduced to the non-negative residue mod 4
before any rotation is applied; `rotate(shape, 4)` reproduces the shape, as
do four single rotations; and the result's dimensions are swapped relative
to the original exactly when the count is odd. -/
theorem claim_C7 (m : ShapeM) (rows cols : Nat) (h : RectM m rows cols)
    (hr : 0 < rows) (hc : 0 < cols) (k : Int) :
    (rotateMatrix m k = rotateOnce^[(k % 4).toNat] m ∧
      0 ≤ k % 4 ∧ k % 4 < 4) ∧
    rotateMatrix m 4 = m ∧
    rotateOnce (rotateOnce (rotateOnce (rotateOnce m))) = m ∧
    ((rotateMatrix m k).length = if Odd k then cols else rows) ∧
    (∀ row ∈ rotateMatrix m k, row.length = if Odd k then rows else cols) := by
  have hA : rotateMatrix m k = rotateOnce^[(k % 4).toNat] m := by
    unfold rotateMatrix
    rw [show (((k % 4) + 4) % 4).toNat = (k % 4).toNat from by omega]
  have h1 := rotateOnce_rect h hr
  have h2 := rotateOnce_rect h1 hc
  have h3 := rotateOnce_rect h2 hr
  have hpar : Odd k ↔ ((k % 4).toNat = 1 ∨ (k % 4).toNat = 3) := by
    rw [Int.odd_iff]
    omega
  have hcases : (k % 4).toNat = 0 ∨ (k % 4).toNat = 1 ∨
      (k % 4).toNat = 2 ∨ (k % 4).toNat = 3 := by omega
  refine ⟨⟨hA, by omega, by omega⟩, rfl, rotateOnce_four h hr hc, ?_, ?_⟩
  · rw [hA]
    rcases hcases with c0 | c1 | c2 | c3
    · rw [c0, if_neg (fun hodd => by rcases hpar.mp hodd with hx | hx <;> omega)]
      exact h.1
    · rw [c1, if_pos (hpar.mpr (Or.inl c1))]
      exact h1.1
    · rw [c2, if_neg (fun hodd => by rcases hpar.mp hodd with hx | hx <;> omega)]
      exact h2.1
    · rw [c3, if_pos (hpar.mpr (Or.inr c3))]
      exact h3.1
  · rw [hA]
    rcases hcases with c0 | c1 | c2 | c3
    · rw [c0, if_neg (fun hodd => by rcases hpar.mp hodd with hx | hx <;> omega)]
      exact h.2
    · rw [c1, if_pos (hpar.mpr (Or.inl c1))]
      exact h1.2
    · rw [c2, if_neg (fun hodd => by rcases hpar.mp hodd with hx | hx <;> omega)]
      exact h2.2
    · rw [c3, if_pos (hpar.mpr (Or.inr c3))]
      exact h3.2

/-- Witness for C7 at the L prototype with rotation count `-3` (odd and
negative): the dimensions come out swapped. -/
theorem claim_C7_witness :
    RectM [[1, 0], [1, 0], [1, 1]] 3 2 ∧
    rotateMatrix [[1, 0], [1, 0], [1, 1]] 4 = [[1, 0], [1, 0], [1, 1]] ∧
    (rotateMatrix [[1, 0], [1, 0], [1, 1]] (-3)).length = 2 := by
  have h := claim_C7 [[1, 0], [1, 0], [1, 1]] 3 2 (by decide)
    (by decide) (by decide) (-3)
  refine ⟨by decide, h.2.1, ?_⟩
  rw [h.2.2.2.1, if_pos (by decide)]

/-! ## Reachability and the deadline invariant (C8) -/

theorem invFull_ignores (r s : GameRoom)
    (hp : s.players.length = r.players.length)
    (ha : s.activePlayerId = r.activePlayerId)
    (hg : s.gameState = r.gameState)
    (ht : s.turnEndsAt = r.turnEndsAt)
    (hI : InvFull r) : InvFull s := by
  unfold InvFull at hI ⊢
  rw [hp, ha, hg, ht]
  exact hI

theorem startTurn_inv (r : GameRoom) (now : Nat)
    (hle : r.players.length ≤ 2) : InvFull (startTurn r now) := by
  by_cases hg : r.turnOrder.length = 0 ∨ r.players.length < 2
  · rw [startTurn_fail r now hg]
    refine ⟨hle, ?_, fun _ => ⟨rfl, rfl⟩, ?_⟩
    · intro hs
      simp at hs
    · intro hp
      simp at hp
  · have hg2 : ¬ r.players.length < 2 := fun hh => hg (Or.inr hh)
    obtain ⟨s1, s2, s3, _, _, s6, _, _, _⟩ :=
      startTurn_spec r now (fun hh => hg (Or.inl hh)) (by omega)
    refine ⟨by rw [s6]; exact hle, ?_, ?_, ?_⟩
    · intro _
      rw [s6]
      omega
    · intro hw
      rw [s3] at hw
      exact absurd hw (by decide)
    · intro _
      refine ⟨by rw [s1]; rfl, ?_⟩
      rw [s2]
      unfold turnDurationMs
      omega

theorem advanceTurn_inv (r : GameRoom) (now : Nat)
    (hle : r.players.length ≤ 2) : InvFull (advanceTurn r now) := by
  unfold advanceTurn
  split
  · refine ⟨hle, ?_, fun _ => ⟨rfl, rfl⟩, ?_⟩
    · intro hs
      simp at hs
    · intro hp
      simp at hp
  · exact startTurn_inv _ now hle

theorem initRoom_inv (id : String) (now : Nat) (supply : Nat → Piece) :
    InvFull (initRoom id now supply) := by
  refine ⟨?_, ?_, fun _ => ⟨rfl, rfl⟩, ?_⟩
  · show (0 : Nat) ≤ 2
    omega
  · intro hs
    simp [initRoom] at hs
  · intro hp
    simp [initRoom] at hp

theorem addPlayer_inv (r : GameRoom) (now sid : Nat) (name : String)
    (hI : InvFull r) : InvFull (addPlayer r now sid name).1 := by
  unfold addPlayer
  split
  · exact hI
  next hfull =>
    have hfull2 : r.players.length < 2 := by
      unfold maxPlayers at hfull
      omega
    have hsetle : (setA r.players sid ⟨sid, name, 0⟩).length ≤ 2 := by
      by_cases hh : hasA r.players sid = true
      · rw [length_setA_of_has _ _ _ hh]
        exact hI.1
      · rw [length_setA_of_not _ _ _ (by simpa using hh)]
        omega
    have hanone : r.activePlayerId = none := by
      rcases hx : r.activePlayerId with _ | a
      · rfl
      · have := hI.2.1 (by rw [hx]; rfl)
        omega
    have hd0 : r.turnEndsAt = 0 := by
      rcases hgs : r.gameState with _ | _
      · exact (hI.2.2.1 hgs).2
      · have := (hI.2.2.2 hgs).1
        rw [hanone] at this
        simp at this
    dsimp only
    by_cases ccond :
        (setA r.players sid ⟨sid, name, 0⟩).length = 2 ∧ r.activePlayerId = none
    · rw [if_pos ccond]
      exact startTurn_inv _ now hsetle
    · rw [if_neg ccond]
      refine ⟨hsetle, ?_, ?_, ?_⟩
      · intro hs
        dsimp only at hs
        rw [hanone] at hs
        simp at hs
      · intro _
        exact ⟨hanone, hd0⟩
      · intro hp
        simp at hp

theorem removePlayer_inv (r : GameRoom) (now sid : Nat) (hI : InvFull r) :
    InvFull (removePlayer r now sid).1 := by
  have hdel : (delA r.players sid).length ≤ 2 :=
    le_trans (length_delA_le _ _) hI.1
  unfold removePlayer
  dsimp only
  by_cases c1 : (delA r.players sid).length < 2
  · rw [if_pos c1]
    refine ⟨hdel, ?_, fun _ => ⟨rfl, rfl⟩, ?_⟩
    · intro hs
      simp at hs
    · intro hp
      simp at hp
  · rw [if_neg c1]
    by_cases c2 : r.activePlayerId = some sid
    · rw [if_pos c2]
      exact advanceTurn_inv _ now hdel
    · rw [if_neg c2]
      refine ⟨hdel, fun _ => ?_, ?_, ?_⟩
      · show (delA r.players sid).length = 2
        omega
      · intro hw
        exact ⟨(hI.2.2.1 hw).1, (hI.2.2.1 hw).2⟩
      · intro hp
        exact ⟨(hI.2.2.2 hp).1, (hI.2.2.2 hp).2⟩

theorem placePiece_inv (r : GameRoom) (now sid : Nat) (shape : ShapeM)
    (color : Nat) (x y : Int) (hI : InvFull r) :
    InvFull (placePiece r now sid shape color x y).1 := by
  unfold placePiece
  by_cases h1 : hasA r.players sid = false
  · rw [if_pos h1]
    exact hI
  · rw [if_neg h1]
    by_cases h2 : r.activePlayerId.isSome = true ∧ r.activePlayerId ≠ some sid
    · rw [if_pos h2]
      exact hI
    · rw [if_neg h2]
      by_cases h3 : r.gameState ≠ GState.playing
      · rw [if_pos h3]
        exact hI
      · rw [if_neg h3]
        by_cases h4 : canPlace r.grid shape x y = false
        · rw [if_pos h4]
          exact hI
        · rw [if_neg h4]
          dsimp only
          have hmem : hasA r.players sid = true := by simpa using h1
          obtain ⟨p, hp⟩ :=
            Option.isSome_iff_exists.mp (by unfold hasA at hmem; exact hmem)
          apply advanceTurn_inv
          exact le_of_eq_of_le (players_after_success_length r sid _ hp) hI.1

theorem resetRoom_inv (r : GameRoom) (now : Nat) (hI : InvFull r) :
    InvFull (resetRoom r now) :=
  invFull_ignores r (resetRoom r now) (List.length_map _ _) rfl rfl rfl hI

theorem tickRoom_inv (r : GameRoom) (now : Nat) (hI : InvFull r) :
    InvFull (tickRoom r now) := by
  unfold tickRoom
  by_cases h1 : r.activePlayerId = none
  · rw [if_pos h1]
    exact hI
  · rw [if_neg h1]
    by_cases h2 : r.gameState ≠ GState.playing ∨ r.players.length < 2
    · rw [if_pos h2]
      exact hI
    · rw [if_neg h2]
      by_cases h3 : r.turnEndsAt < now
      · rw [if_pos h3]
        exact advanceTurn_inv _ now hI.1
      · rw [if_neg h3]
        exact hI

theorem reachable_invFull {r : GameRoom} (h : Reachable r) : InvFull r := by
  induction h with
  | init id now supply => exact initRoom_inv id now supply
  | add r now sid name _ ih => exact addPlayer_inv r now sid name ih
  | remove r now sid _ ih => exact removePlayer_inv r now sid ih
  | place r now sid shape color x y _ ih =>
      exact placePiece_inv r now sid shape color x y ih
  | reset r now _ ih => exact resetRoom_inv r now ih
  | tick r now _ ih => exact tickRoom_inv r now ih

/-- C8: in every reachable room state, a turn deadline is set if and only if
an active player exists and the room is playing; in `waiting` both the
active player and the deadline are cleared. -/
theorem claim_C8 (r : GameRoom) (h : Reachable r) : DeadlineInv r := by
  obtain ⟨hle, h2, hw, hp⟩ := reachable_invFull h
  refine ⟨⟨?_, ?_⟩, hw⟩
  · intro hne
    rcases hgs : r.gameState with _ | _
    · exact absurd (hw hgs).2 hne
    · exact ⟨(hp hgs).1, rfl⟩
  · rintro ⟨hs, hgs⟩
    exact (hp hgs).2

/-- Witness for C8: the invariant holds at the concrete reachable two-player
room. -/
theorem claim_C8_witness : DeadlineInv room2 :=
  claim_C8 room2
    (Reachable.add room1 0 2 "bob"
      (Reachable.add room0 0 1 "alice" (Reachable.init "room" 0 pieceSupply)))

/-- C9 (counterexample to the claim as stated): after an earlier game in the
same room (`turnIndex` was left at 1), a second join into the waiting
one-player room starts the game with the *second* joiner active
(`turnOrder[1] = 3`), not `turnOrder[0] = 1` as the claim demands. -/
theorem claim_C9_counterexample :
    room4.gameState = .waiting ∧ room4.players.length = 1 ∧
    room4.activePlayerId = none ∧ room4.turnIndex = 1 ∧
    room5.gameState = .playing ∧ room5.turnOrder = [1, 3] ∧
    room5.activePlayerId = some 3 := by
  decide

/-- C9 (amended): when a second player joins a waiting room (one player, no
active player), turns start: the turn order is the join order (the new
player appended), the deadline is `now` plus the turn duration, the state
becomes `playing`, a fresh piece is assigned to the new active player, and
the active player is `turnOrder[turnIndex]` for the *retained* `turnIndex`
(reset to 0 only if it ran past the order) — which is the first joiner for a
fresh room but can be the second joiner after an earlier game. -/
theorem claim_C9 (r : GameRoom) (now sid : Nat) (name : String)
    (h1 : r.players.length = 1)
    (h2 : hasA r.players sid = false)
    (h3 : r.activePlayerId = none) :
    (addPlayer r now sid name).2 = true ∧
    (addPlayer r now sid name).1.gameState = .playing ∧
    (addPlayer r now sid name).1.turnOrder = r.turnOrder ++ [sid] ∧
    (addPlayer r now sid name).1.turnEndsAt = now + turnDurationMs ∧
    (addPlayer r now sid name).1.activePlayerId =
      some ((r.turnOrder ++ [sid]).getD
        (if (r.turnOrder ++ [sid]).length ≤ r.turnIndex then 0
         else r.turnIndex) 0) ∧
    (∃ pc : Piece, getA (addPlayer r now sid name).1.assignedPieceByPlayer
      ((r.turnOrder ++ [sid]).getD
        (if (r.turnOrder ++ [sid]).length ≤ r.turnIndex then 0
         else r.turnIndex) 0) = some (some pc)) := by
  have hlen2 : (setA r.players sid ⟨sid, name, 0⟩).length = 2 := by
    rw [length_setA_of_not _ _ _ h2]
    omega
  unfold addPlayer
  rw [if_neg (by unfold maxPlayers; omega)]
  dsimp only
  rw [if_pos ⟨hlen2, h3⟩]
  obtain ⟨s1, s2, s3, s4, s5, s6, s7, s8, s9⟩ :=
    startTurn_spec { r with players := setA r.players sid ⟨sid, name, 0⟩, turnOrder := r.turnOrder ++ [sid], assignedPieceByPlayer := setA r.assignedPieceByPlayer sid none, lastActivity := now, gameState := GState.playing } now
      (by show (r.turnOrder ++ [sid]).length ≠ 0; simp)
      (by show 2 ≤ (setA r.players sid ⟨sid, name, 0⟩).length; omega)
  obtain ⟨pc, hpc⟩ := s9
  refine ⟨rfl, s3, s4, s2, s1, ⟨pc, ?_⟩⟩
  have hX : (startTurn { r with players := setA r.players sid ⟨sid, name, 0⟩, turnOrder := r.turnOrder ++ [sid], assignedPieceByPlayer := setA r.assignedPieceByPlayer sid none, lastActivity := now, gameState := GState.playing } now).assignedPieceByPlayer
      = setA (setA r.assignedPieceByPlayer sid none)
        ((r.turnOrder ++ [sid]).getD
          (if (r.turnOrder ++ [sid]).length ≤ r.turnIndex then 0
           else r.turnIndex) 0) (some pc) := hpc
  rw [hX, getA_setA, if_pos rfl]

/-- Witness for the amended C9: player 2 joins the fresh one-player room;
the game starts with `turnOrder[turnIndex]` active. -/
theorem claim_C9_witness :
    (addPlayer room1 0 2 "bob").1.gameState = .playing ∧
    (addPlayer room1 0 2 "bob").1.activePlayerId =
      some ((room1.turnOrder ++ [2]).getD
        (if (room1.turnOrder ++ [2]).length ≤ room1.turnIndex then 0
         else room1.turnIndex) 0) := by
  have h := claim_C9 room1 0 2 "bob" (by decide) (by decide) (by decide)
  exact ⟨h.2.1, h.2.2.2.2.1⟩

/-! ## Score lemmas (C10) -/

theorem addPlayer_players (r : GameRoom) (now sid : Nat) (name : String) :
    (addPlayer r now sid name).1.players = r.players ∨
    (addPlayer r now sid name).1.players = setA r.players sid ⟨sid, name, 0⟩ := by
  unfold addPlayer
  split
  · exact Or.inl rfl
  · dsimp only
    split
    · exact Or.inr (startTurn_frame _ _).1
    · exact Or.inr rfl

theorem addPlayer_players_acc (r : GameRoom) (now sid : Nat) (name : String)
    (hacc : (addPlayer r now sid name).2 = true) :
    (addPlayer r now sid name).1.players = setA r.players sid ⟨sid, name, 0⟩ := by
  unfold addPlayer at hacc ⊢
  by_cases hfull : maxPlayers ≤ r.players.length
  · rw [if_pos hfull] at hacc
    simp at hacc
  · rw [if_neg hfull]
    dsimp only
    split
    · exact (startTurn_frame _ _).1
    · rfl

theorem removePlayer_players (r : GameRoom) (now sid : Nat) :
    (removePlayer r now sid).1.players = delA r.players sid := by
  unfold removePlayer
  dsimp only
  split
  · rfl
  · split
    · exact (advanceTurn_frame _ _).1
    · rfl

theorem tickRoom_players (r : GameRoom) (now : Nat) :
    (tickRoom r now).players = r.players := by
  unfold tickRoom
  split
  · rfl
  · split
    · rfl
    · split
      · exact (advanceTurn_frame _ _).1
      · rfl

/-- A successful `placePiece` implies all four guards passed, and the
returned count is the clearing pass's count. -/
theorem placePiece_ok_inv (r : GameRoom) (now sid : Nat) (shape : ShapeM)
    (color : Nat) (x y : Int) (n : Nat)
    (hok : (placePiece r now sid shape color x y).2 = .ok n) :
    hasA r.players sid = true ∧
    ¬(r.activePlayerId.isSome = true ∧ r.activePlayerId ≠ some sid) ∧
    r.gameState = .playing ∧
    canPlace r.grid shape x y = true ∧
    n = (clearFullRows (placeShape shape x y color r.grid)).2 := by
  have hmem : hasA r.players sid = true := by
    by_cases h1 : hasA r.players sid = false
    · unfold placePiece at hok
      rw [if_pos h1] at hok
      simp at hok
    · simpa using h1
  have hact2 : ¬(r.activePlayerId.isSome = true ∧ r.activePlayerId ≠ some sid) := by
    intro h2
    unfold placePiece at hok
    rw [if_neg (by simp [hmem]), if_pos h2] at hok
    simp at hok
  have hst : r.gameState = .playing := by
    by_cases h3 : r.gameState ≠ GState.playing
    · unfold placePiece at hok
      rw [if_neg (by simp [hmem]), if_neg hact2, if_pos h3] at hok
      simp at hok
    · simpa using h3
  have hcan : canPlace r.grid shape x y = true := by
    by_cases h4 : canPlace r.grid shape x y = false
    · unfold placePiece at hok
      rw [if_neg (by simp [hmem]), if_neg hact2, if_neg (by simp [hst]),
        if_pos h4] at hok
      simp at hok
    · simpa using h4
  refine ⟨hmem, hact2, hst, hcan, ?_⟩
  rw [placePiece_success_eq r now sid shape color x y hmem hact2 hst hcan] at hok
  dsimp only at hok
  exact (PlaceResult.ok.inj hok).symm

/-- The placing player's roster entry after a successful placement. -/
theorem placePiece_score_self (r : GameRoom) (now sid : Nat) (shape : ShapeM)
    (color : Nat) (x y : Int) (n : Nat) (p : Player)
    (hok : (placePiece r now sid shape color x y).2 = .ok n)
    (hp : getA r.players sid = some p) :
    getA (placePiece r now sid shape color x y).1.players sid =
      some { p with score := p.score + n * 100 } := by
  obtain ⟨hmem, hact2, hst, hcan, hn⟩ :=
    placePiece_ok_inv r now sid shape color x y n hok
  rw [placePiece_success_eq r now sid shape color x y hmem hact2 hst hcan]
  dsimp only
  rw [(advanceTurn_frame _ now).1]
  dsimp only
  subst hn
  by_cases h0 : 0 < (clearFullRows (placeShape shape x y color r.grid)).2
  · rw [if_pos h0, hp]
    dsimp only
    rw [getA_setA, if_pos rfl]
  · rw [if_neg h0, hp]
    have hz : (clearFullRows (placeShape shape x y color r.grid)).2 = 0 := by
      omega
    rw [hz]
    simp

/-- A placement never touches another player's roster entry. -/
theorem placePiece_score_others (r : GameRoom) (now sid : Nat)
    (shape : ShapeM) (color : Nat) (x y : Int) (k : Nat) (hk : k ≠ sid) :
    getA (placePiece r now sid shape color x y).1.players k =
      getA r.players k := by
  rcases hres : (placePiece r now sid shape color x y).2 with n | reason
  · obtain ⟨hmem, hact2, hst, hcan, _⟩ :=
      placePiece_ok_inv r now sid shape color x y n hres
    rw [placePiece_success_eq r now sid shape color x y hmem hact2 hst hcan]
    dsimp only
    rw [(advanceTurn_frame _ now).1]
    dsimp only
    by_cases h0 : 0 < (clearFullRows (placeShape shape x y color r.grid)).2
    · rw [if_pos h0]
      rcases hg : getA r.players sid with _ | p
      · rfl
      · dsimp only
        rw [getA_setA, if_neg (fun hh => hk hh.symm)]
    · rw [if_neg h0]
  · rw [placePiece_rejected_frame r now sid shape color x y reason hres]

theorem getA_map_score_zero (l : List (Nat × Player)) (k : Nat) (p : Player)
    (h : getA (l.map fun e => (e.1, { e.2 with score := 0 })) k = some p) :
    p.score = 0 := by
  induction l with
  | nil => simp [getA] at h
  | cons e t ih =>
    obtain ⟨ek, ev⟩ := e
    rw [List.map_cons, getA] at h
    by_cases hek : ek = k
    · rw [if_pos hek] at h
      rw [Option.some.injEq] at h
      rw [← h]
    · rw [if_neg hek] at h
      exact ih h

/-- Every reachable roster entry's score is a multiple of 100. -/
theorem reachable_scores_div {r : GameRoom} (h : Reachable r) :
    ∀ e ∈ r.players, 100 ∣ e.2.score := by
  induction h with
  | init id now supply =>
    intro e he
    simp [initRoom] at he
  | add r now sid name _ ih =>
    intro e he
    rcases addPlayer_players r now sid name with hp | hp
    · rw [hp] at he
      exact ih e he
    · rw [hp] at he
      rcases mem_setA he with rfl | hmem
      · exact dvd_zero 100
      · exact ih e hmem
  | remove r now sid _ ih =>
    intro e he
    rw [removePlayer_players] at he
    exact ih e ((delA_sublist _ _).subset he)
  | place r now sid shape color x y _ ih =>
    intro e he
    rcases hres : (placePiece r now sid shape color x y).2 with n | reason
    · obtain ⟨hmem, hact2, hst, hcan, hn⟩ :=
        placePiece_ok_inv r now sid shape color x y n hres
      rw [placePiece_success_eq r now sid shape color x y hmem hact2 hst hcan]
        at he
      dsimp only at he
      rw [(advanceTurn_frame _ now).1] at he
      dsimp only at he
      by_cases h0 : 0 < (clearFullRows (placeShape shape x y color r.grid)).2
      · rw [if_pos h0] at he
        rcases hg : getA r.players sid with _ | p
        · rw [hg] at he
          exact ih e he
        · rw [hg] at he
          dsimp only at he
          rcases mem_setA he with rfl | hmem2
          · have hdvd := ih (sid, p) (getA_mem hg)
            exact dvd_add hdvd (dvd_mul_left 100 _)
          · exact ih e hmem2
      · rw [if_neg h0] at he
        exact ih e he
    · rw [placePiece_rejected_frame r now sid shape color x y reason hres] at he
      exact ih e he
  | reset r now _ ih =>
    intro e he
    unfold resetRoom at he
    dsimp only at he
    rw [List.mem_map] at he
    obtain ⟨a, _, rfl⟩ := he
    exact dvd_zero 100
  | tick r now _ ih =>
    intro e he
    rw [tickRoom_players] at he
    exact ih e he

/-- C10 (amended): in every reachable room state all scores are non-negative
multiples of 100; scores change only through a successful placement (+100
per cleared row, placer only), a reset (all to 0), or a join that (re)uses
an identity, which (re)creates that identity's entry with score 0 — the one
score-decreasing operation besides reset. -/
theorem claim_C10 (r : GameRoom) (h : Reachable r) : ScoreBehavior r := by
  refine ⟨reachable_scores_div h, ?_, ?_, ?_, ?_, ?_, ?_, ?_⟩
  · intro now sid name hacc
    rw [addPlayer_players_acc r now sid name hacc, getA_setA, if_pos rfl]
  · intro now sid name k hk
    rcases addPlayer_players r now sid name with hp | hp
    · rw [hp]
    · rw [hp, getA_setA, if_neg (fun hh => hk hh.symm)]
  · intro now sid shape color x y n p hok hp
    exact placePiece_score_self r now sid shape color x y n p hok hp
  · intro now sid shape color x y k hk
    exact placePiece_score_others r now sid shape color x y k hk
  · intro now sid k hk
    rw [removePlayer_players, getA_delA_ne _ _ _ (fun hh => hk hh.symm)]
  · intro now k
    rw [tickRoom_players]
  · intro now k p hgp
    exact getA_map_score_zero r.players k p hgp

/-- C10 (counterexample to the claim as stated): after player 1 cleared a
row (score 100) and player 2 left, player 1's re-join — a join, not a
reset — re-creates player 1 with score 0, decreasing an existing score. -/
theorem claim_C10_counterexample :
    getA room4.players 1 = some ⟨1, "alice", 100⟩ ∧
    (addPlayer room4 7 1 "alice").2 = true ∧
    getA room5b.players 1 = some ⟨1, "alice", 0⟩ := by
  decide

/-- Witness for the amended C10 at the concrete reachable two-player room. -/
theorem claim_C10_witness : ScoreBehavior room2 :=
  claim_C10 room2
    (Reachable.add room1 0 2 "bob"
      (Reachable.add room0 0 1 "alice" (Reachable.init "room" 0 pieceSupply)))

end Boxfit
